import Mathlib

/-!
Verification of the mortgage-refinance tipping-point calculator.

The source program is embedded shallowly over the exact rationals `ℚ`
(the Python source computes with floats; every arithmetic operation it
performs is a field operation with natural-number exponents, so the
rational embedding mirrors each formula exactly).  Calendar months are
embedded as integer month indices.
-/

namespace MortgageRefi

/-- Fixed monthly principal-and-interest payment (source `calculate_pmt`). -/
def calculate_pmt (principal annual_rate : ℚ) (months : ℕ) : ℚ :=
  if annual_rate ≤ 0 then principal / (months : ℚ)
  else
    principal * ((annual_rate / 100 / 12) * (1 + annual_rate / 100 / 12) ^ months) /
      ((1 + annual_rate / 100 / 12) ^ months - 1)

/-- Remaining balance, fixed payment and remaining interest after
`payments_made` payments (source `get_loan_status`): the balance is obtained
by iterating `balance -= pmt - balance * r`. -/
def get_loan_status (principal annual_rate : ℚ) (total_months payments_made : ℕ) :
    ℚ × ℚ × ℚ :=
  let r := annual_rate / 100 / 12
  let pmt := calculate_pmt principal annual_rate total_months
  let balance := (List.range payments_made).foldl (fun b _ => b - (pmt - b * r)) principal
  (balance, pmt, pmt * ((total_months : ℚ) - (payments_made : ℚ)) - balance)

/-! ### Sale-horizon resolution (source `calculate_total_payments_until_sale`)

Calendar dates (always day 1 of a month) are embedded as absolute month
indices `12 * year + (month - 1)`; stepping back `k` months subtracts `k`
from the index, exactly as `datetime - relativedelta(months=k)` does for
day-1 dates. -/

/-- Absolute month index of the first day of a calendar month. -/
def monthIndex (y m : ℤ) : ℤ := 12 * y + (m - 1)

/-- Month index of the first payment: the fixed current reference
(November 2025) stepped back `payments_made - 1` months. -/
def firstPaymentIndex (payments_made : ℤ) : ℤ :=
  monthIndex 2025 11 - (payments_made - 1)

/-- Calendar year of the first payment. -/
def firstPaymentYear (payments_made : ℤ) : ℤ := (firstPaymentIndex payments_made).fdiv 12

/-- Calendar month (1..12) of the first payment. -/
def firstPaymentMonth (payments_made : ℤ) : ℤ := (firstPaymentIndex payments_made).fmod 12 + 1

/-- Three-letter month abbreviation as produced by `strftime('%b')`. -/
def monthName (m : ℤ) : String :=
  (["Jan", "Feb", "Mar", "Apr", "May", "Jun",
    "Jul", "Aug", "Sep", "Oct", "Nov", "Dec"]).getD (m - 1).toNat ""

/-- The `'%b %Y'` label of the first payment month. -/
def first_payment_label (payments_made : ℤ) : String :=
  monthName (firstPaymentMonth payments_made) ++ " " ++ toString (firstPaymentYear payments_made)

/-- Inclusive month count from the first payment through the sale month
(source line `total_months = 12*(Δyear) + (Δmonth) + 1`). -/
def total_months (payments_made sell_year sell_month : ℤ) : ℤ :=
  12 * (sell_year - firstPaymentYear payments_made) +
    (sell_month - firstPaymentMonth payments_made) + 1

/-- Source `calculate_total_payments_until_sale`: raises `ValueError` when
the count is below `payments_made`, else returns the count and the label. -/
def calculate_total_payments_until_sale (payments_made sell_year sell_month : ℤ) :
    Except String (ℤ × String) :=
  if total_months payments_made sell_year sell_month < payments_made then
    Except.error "The calculated sale date is before the current payment date"
  else
    Except.ok (total_months payments_made sell_year sell_month,
      first_payment_label payments_made)

/-! ### The tipping-point search (source `run_analysis`, steps 1-3) -/

/-- The inputs reaching the search phase of `run_analysis`:
`months_until_sale` is the value returned by the sale-horizon resolution
(which guarantees `months_until_sale ≥ paid` before the search runs). -/
structure Args where
  amount : ℚ
  rate : ℚ
  term : ℕ
  paid : ℕ
  months_until_sale : ℕ
  costs_pct : ℚ

/-- `pmt_orig` of `run_analysis`. -/
def pmt_orig (a : Args) : ℚ := (get_loan_status a.amount a.rate a.term a.paid).2.1

/-- `remaining_principal` of `run_analysis`. -/
def remaining_principal (a : Args) : ℚ := (get_loan_status a.amount a.rate a.term a.paid).1

/-- `closing_costs = remaining_principal * closing_cost_pct`. -/
def closing_costs (a : Args) : ℚ := remaining_principal a * a.costs_pct

/-- `cost_refi_loan_amt = remaining_principal + closing_costs`. -/
def cost_refi_loan_amt (a : Args) : ℚ := remaining_principal a + closing_costs a

/-- `refi_payments_until_sale = months_until_sale - payments_made`. -/
def refi_payments_until_sale (a : Args) : ℕ := a.months_until_sale - a.paid

/-- Remaining balance of the original loan at the sale date. -/
def rem_principal_orig_sale (a : Args) : ℚ :=
  (get_loan_status a.amount a.rate a.term a.months_until_sale).1

/-- `total_cost_orig_at_sale`: the benchmark cost of keeping the loan. -/
def total_cost_orig_at_sale (a : Args) : ℚ :=
  pmt_orig a * (a.months_until_sale : ℚ) + rem_principal_orig_sale a

/-- Refinance payment for a candidate rate: term hard-coded to 360 months. -/
def pmt_refi (a : Args) (r_new : ℚ) : ℚ := calculate_pmt (cost_refi_loan_amt a) r_new 360

/-- Loop condition A (lifetime): `pmt_refi * 360 < pmt_orig * (term - paid)`. -/
def lifetimePred (a : Args) (r_new : ℚ) : Bool :=
  decide (pmt_refi a r_new * 360 < pmt_orig a * ((a.term : ℚ) - (a.paid : ℚ)))

/-- Remaining balance of the refinanced loan at the sale date. -/
def rem_principal_refi_sale (a : Args) (r_new : ℚ) : ℚ :=
  (get_loan_status (cost_refi_loan_amt a) r_new 360 (refi_payments_until_sale a)).1

/-- `total_cost_refi_at_sale` for a candidate rate. -/
def total_cost_refi_at_sale (a : Args) (r_new : ℚ) : ℚ :=
  pmt_orig a * (a.paid : ℚ) + pmt_refi a r_new * (refi_payments_until_sale a : ℚ) +
    rem_principal_refi_sale a r_new

/-- Loop condition B (time-to-sell). -/
def salePred (a : Args) (r_new : ℚ) : Bool :=
  decide (total_cost_refi_at_sale a r_new < total_cost_orig_at_sale a)

/-- The candidate list `np.arange(original_rate, 2.99, -0.001)` in exact
arithmetic: `⌈(start - stop) / step⌉` elements `start - i * 0.001`. -/
def searchRates (orig : ℚ) : List ℚ :=
  (List.range (⌈(orig - 299 / 100) * 1000⌉.toNat)).map (fun i : ℕ => orig - (i : ℚ) / 1000)

/-- One iteration of the search loop: each latch is set when its predicate
holds and the latch is still unset (`... and tipping_rate_... is None`). -/
def searchStep (f g : ℚ → Bool) (st : Option ℚ × Option ℚ) (r : ℚ) :
    Option ℚ × Option ℚ :=
  (if f r && st.1.isNone then some r else st.1,
   if g r && st.2.isNone then some r else st.2)

/-- The two latches after the whole scan: `(tipping_rate_lifetime, tipping_rate_sale)`
before the `None` fallback. -/
def tippingLatches (a : Args) : Option ℚ × Option ℚ :=
  (searchRates a.rate).foldl (searchStep (lifetimePred a) (salePred a)) (none, none)

/-- `tipping_rate_lifetime` after the fallback to the original rate. -/
def tipping_rate_lifetime (a : Args) : ℚ := (tippingLatches a).1.getD a.rate

/-- `tipping_rate_sale` after the fallback to the original rate. -/
def tipping_rate_sale (a : Args) : ℚ := (tippingLatches a).2.getD a.rate

/-! ### Comparison-table rates (source `run_analysis`, step 4) -/

/-- Round-half-to-even to an integer, as Python `round` does. -/
def roundHalfEven (x : ℚ) : ℤ :=
  if x - ⌊x⌋ < 1 / 2 then ⌊x⌋
  else if 1 / 2 < x - ⌊x⌋ then ⌊x⌋ + 1
  else if ⌊x⌋ % 2 = 0 then ⌊x⌋ else ⌊x⌋ + 1

/-- Python `round(x, 3)`. -/
def round3 (x : ℚ) : ℚ := (roundHalfEven (x * 1000) : ℚ) / 1000

/-- The five displayed candidate rates, in source order. -/
def table_rate_candidates (ts tl : ℚ) : List ℚ :=
  [round3 (ts + 75 / 1000), round3 ts, round3 (ts - 1 / 4), round3 tl, round3 (tl - 1 / 4)]

/-- `table_rates`: `sorted(set(cands))`, filter `< original_rate`,
`sorted(set(·), reverse=True)`. -/
def table_rates (ts tl orig : ℚ) : List ℚ :=
  List.insertionSort (· ≥ ·)
    ((((List.insertionSort (· ≤ ·) (table_rate_candidates ts tl).dedup)).filter
        (fun r => decide (r < orig))).dedup)

/-- The LOSS/GAIN label applied to a savings figure (source lines 191-192). -/
def loss_label (savings : ℚ) : String :=
  if savings < 1 / 100 ∧ |savings| > 1 / 100 then " (LOSS)" else " (GAIN)"

/-! ### Basic payment-formula lemmas -/

lemma calculate_pmt_of_nonpos (P a : ℚ) (N : ℕ) (ha : a ≤ 0) :
    calculate_pmt P a N = P / (N : ℚ) := by
  rw [calculate_pmt, if_pos ha]

lemma calculate_pmt_of_pos (P a : ℚ) (N : ℕ) (ha : 0 < a) :
    calculate_pmt P a N =
      P * ((a / 100 / 12) * (1 + a / 100 / 12) ^ N) / ((1 + a / 100 / 12) ^ N - 1) := by
  rw [calculate_pmt, if_neg (not_le.mpr ha)]

/-- Geometric identity behind the annuity formula: the sum of the `N`
discount factors `(1/u)^k`, `k = 1..N`. -/
lemma inv_geom_sum_eq (u : ℚ) (hu : 1 < u) (N : ℕ) :
    ∑ k ∈ Finset.range N, (1 / u) ^ (k + 1) = (u ^ N - 1) / ((u - 1) * u ^ N) := by
  have h0 : u ≠ 0 := ne_of_gt (lt_trans one_pos hu)
  have h1 : u - 1 ≠ 0 := sub_ne_zero.mpr (ne_of_gt hu)
  induction N with
  | zero => simp
  | succ n ih =>
    rw [Finset.sum_range_succ, ih]
    have h2 : u ^ n ≠ 0 := pow_ne_zero _ h0
    field_simp
    ring

/-- The fixed payment is the principal divided by the sum of discount factors. -/
lemma pmt_eq_div_sum (P a : ℚ) (N : ℕ) (ha : 0 < a) :
    calculate_pmt P a N = P / ∑ k ∈ Finset.range N, (1 / (1 + a / 100 / 12)) ^ (k + 1) := by
  have hm : 0 < a / 100 / 12 := by positivity
  have hu : 1 < 1 + a / 100 / 12 := by linarith
  rw [calculate_pmt_of_pos P a N ha, inv_geom_sum_eq _ hu, div_div_eq_mul_div]
  ring

lemma sum_inv_pow_pos (m : ℚ) (hm : 0 < m) (N : ℕ) (hN : 1 ≤ N) :
    0 < ∑ k ∈ Finset.range N, (1 / (1 + m)) ^ (k + 1) := by
  have h1 : (0 : ℚ) < 1 + m := by linarith
  exact Finset.sum_pos (fun k _ => by positivity) (Finset.nonempty_range_iff.mpr (by omega))

lemma sum_inv_pow_lt_card (m : ℚ) (hm : 0 < m) (N : ℕ) (hN : 1 ≤ N) :
    ∑ k ∈ Finset.range N, (1 / (1 + m)) ^ (k + 1) < (N : ℚ) := by
  have h1 : (0 : ℚ) < 1 + m := by linarith
  have hlt : 1 / (1 + m) < 1 := by rw [div_lt_one h1]; linarith
  calc ∑ k ∈ Finset.range N, (1 / (1 + m)) ^ (k + 1)
      < ∑ _k ∈ Finset.range N, (1 : ℚ) :=
        Finset.sum_lt_sum_of_nonempty (Finset.nonempty_range_iff.mpr (by omega))
          (fun k _ => pow_lt_one₀ (by positivity) hlt (by omega))
    _ = (N : ℚ) := by simp

lemma sum_inv_pow_strict_anti (m₁ m₂ : ℚ) (h1 : 0 < m₁) (h12 : m₁ < m₂) (N : ℕ)
    (hN : 1 ≤ N) :
    ∑ k ∈ Finset.range N, (1 / (1 + m₂)) ^ (k + 1) <
      ∑ k ∈ Finset.range N, (1 / (1 + m₁)) ^ (k + 1) := by
  have ha : (0 : ℚ) < 1 + m₁ := by linarith
  have hb : (0 : ℚ) < 1 + m₂ := by linarith
  have hlt : 1 / (1 + m₂) < 1 / (1 + m₁) :=
    div_lt_div_of_pos_left one_pos ha (by linarith)
  exact Finset.sum_lt_sum_of_nonempty (Finset.nonempty_range_iff.mpr (by omega))
    (fun k _ => pow_lt_pow_left₀ hlt (div_pos one_pos hb).le (by omega))

/-- C7: `calculate_pmt` is total for every `termMonths ≥ 1`: for a rate `≤ 0`
it returns exactly `principal / termMonths`, and for a positive rate the
divisor `(1+r)^termMonths - 1` of the amortization formula is nonzero. -/
theorem calculate_pmt_total (P a : ℚ) (N : ℕ) (hN : 1 ≤ N) :
    (a ≤ 0 → calculate_pmt P a N = P / (N : ℚ)) ∧
    (0 < a → (1 + a / 100 / 12) ^ N - 1 ≠ 0 ∧
      calculate_pmt P a N =
        P * ((a / 100 / 12) * (1 + a / 100 / 12) ^ N) / ((1 + a / 100 / 12) ^ N - 1)) := by
  refine ⟨fun h => calculate_pmt_of_nonpos P a N h, fun h => ?_⟩
  have hm : 0 < a / 100 / 12 := by positivity
  have hpow : 1 < (1 + a / 100 / 12) ^ N := one_lt_pow₀ (by linarith) (by omega)
  exact ⟨sub_ne_zero.mpr (ne_of_gt hpow), calculate_pmt_of_pos P a N h⟩

theorem calculate_pmt_total_witness :
    (1 ≤ 12 ∧ calculate_pmt 100 0 12 = 100 / ((12 : ℕ) : ℚ)) ∧
    (1 ≤ 12 ∧ (1 + (12 : ℚ) / 100 / 12) ^ (12 : ℕ) - 1 ≠ 0) :=
  ⟨⟨by norm_num, (calculate_pmt_total 100 0 12 (by norm_num)).1 (by norm_num)⟩,
   ⟨by norm_num, ((calculate_pmt_total 100 12 12 (by norm_num)).2 (by norm_num)).1⟩⟩

/-- C8: for a fixed positive principal and a term of at least one month, the
fixed payment is strictly increasing in the annual rate over rates `≥ 0`. -/
theorem calculate_pmt_strict_mono_in_rate (P : ℚ) (N : ℕ) (r₁ r₂ : ℚ)
    (hP : 0 < P) (hN : 1 ≤ N) (h1 : 0 ≤ r₁) (h12 : r₁ < r₂) :
    calculate_pmt P r₁ N < calculate_pmt P r₂ N := by
  have h2 : 0 < r₂ := lt_of_le_of_lt h1 h12
  have hm2 : 0 < r₂ / 100 / 12 := by positivity
  have hS2 := sum_inv_pow_pos _ hm2 N hN
  rw [pmt_eq_div_sum P r₂ N h2]
  rcases eq_or_lt_of_le h1 with h0 | hpos
  · rw [calculate_pmt_of_nonpos P r₁ N (le_of_eq h0.symm)]
    exact div_lt_div_of_pos_left hP hS2 (sum_inv_pow_lt_card _ hm2 N hN)
  · rw [pmt_eq_div_sum P r₁ N hpos]
    have hm1 : 0 < r₁ / 100 / 12 := by positivity
    exact div_lt_div_of_pos_left hP hS2
      (sum_inv_pow_strict_anti _ _ hm1 (by linarith) N hN)

theorem calculate_pmt_strict_mono_in_rate_witness :
    (0 : ℚ) < 1200 ∧ 1 ≤ 12 ∧ (0 : ℚ) ≤ 0 ∧ (0 : ℚ) < 12 ∧
      calculate_pmt 1200 0 12 < calculate_pmt 1200 12 12 :=
  ⟨by norm_num, by norm_num, le_refl 0, by norm_num,
   calculate_pmt_strict_mono_in_rate 1200 12 0 12 (by norm_num) (by norm_num)
     (le_refl 0) (by norm_num)⟩

/-- C9: the row label is " (LOSS)" exactly when the savings value is strictly
less than -0.01; in particular every savings value `≥ -0.01` (hence every
non-negative one) is labelled " (GAIN)". -/
theorem loss_gain_label_iff (s : ℚ) :
    (loss_label s = " (LOSS)" ↔ s < -(1 / 100)) ∧
    (loss_label s = " (GAIN)" ↔ -(1 / 100) ≤ s) := by
  have key : (s < 1 / 100 ∧ |s| > 1 / 100) ↔ s < -(1 / 100) := by
    constructor
    · rintro ⟨hlt, habs⟩
      rcases lt_abs.mp habs with h | h
      · linarith
      · linarith
    · intro h
      refine ⟨by linarith, ?_⟩
      rw [gt_iff_lt, lt_abs]
      right
      linarith
  rw [loss_label]
  by_cases h : s < -(1 / 100)
  · rw [if_pos (key.mpr h)]
    exact ⟨⟨fun _ => h, fun _ => rfl⟩,
      ⟨fun hg => absurd hg (by decide), fun hle => absurd h (not_lt.mpr hle)⟩⟩
  · rw [if_neg (fun hc => h (key.mp hc))]
    exact ⟨⟨fun hg => absurd hg (by decide), fun hlt => absurd hlt h⟩,
      ⟨fun _ => not_lt.mp h, fun _ => rfl⟩⟩

/-- C2: the sale-horizon resolution fails exactly when the derived inclusive
month count is strictly less than `payments_made`, and otherwise returns the
count together with the first-payment label. -/
theorem sale_horizon_error_iff (p sy sm : ℤ) :
    ((∃ msg, calculate_total_payments_until_sale p sy sm = Except.error msg) ↔
      total_months p sy sm < p) ∧
    (p ≤ total_months p sy sm →
      calculate_total_payments_until_sale p sy sm =
        Except.ok (total_months p sy sm, first_payment_label p)) := by
  simp only [calculate_total_payments_until_sale]
  by_cases h : total_months p sy sm < p
  · rw [if_pos h]
    exact ⟨⟨fun _ => h, fun _ => ⟨_, rfl⟩⟩, fun hp => absurd h (not_lt.mpr hp)⟩
  · rw [if_neg h]
    refine ⟨⟨?_, fun hlt => absurd hlt h⟩, fun _ => rfl⟩
    rintro ⟨msg, hmsg⟩
    exact Except.noConfusion hmsg

theorem sale_horizon_error_iff_witness :
    calculate_total_payments_until_sale 4 2035 7 =
      Except.ok (total_months 4 2035 7, first_payment_label 4) ∧
    (∃ msg, calculate_total_payments_until_sale 4 2025 1 = Except.error msg) :=
  ⟨(sale_horizon_error_iff 4 2035 7).2 (by decide),
   (sale_horizon_error_iff 4 2025 1).1.mpr (by decide)⟩

/-- C6: with the default configuration (4 payments made, sale July 2035,
reference November 2025) the horizon resolves to 120 months and the
first-payment label is "Aug 2025" (Nov 2025 stepped back 3 months). -/
theorem default_scenario_horizon :
    calculate_total_payments_until_sale 4 2035 7 = Except.ok (120, "Aug 2025") ∧
    firstPaymentYear 4 = 2025 ∧ firstPaymentMonth 4 = 8 :=
  ⟨rfl, rfl, rfl⟩

/-! ### The scan list and the latch semantics of the search loop -/

lemma foldl_searchStep_fst_some (f g : ℚ → Bool) (l : List ℚ) (x : ℚ) :
    ∀ t : Option ℚ, (l.foldl (searchStep f g) (some x, t)).1 = some x := by
  induction l with
  | nil => intro t; rfl
  | cons r rs ih =>
    intro t
    have hstep : searchStep f g (some x, t) r =
        (some x, if g r && t.isNone then some r else t) := by
      simp [searchStep]
    rw [List.foldl_cons, hstep]
    exact ih _

lemma foldl_searchStep_snd_some (f g : ℚ → Bool) (l : List ℚ) (x : ℚ) :
    ∀ s : Option ℚ, (l.foldl (searchStep f g) (s, some x)).2 = some x := by
  induction l with
  | nil => intro s; rfl
  | cons r rs ih =>
    intro s
    have hstep : searchStep f g (s, some x) r =
        (if f r && s.isNone then some r else s, some x) := by
      simp [searchStep]
    rw [List.foldl_cons, hstep]
    exact ih _

/-- The first latch of the loop computes `find?` of the lifetime condition. -/
lemma foldl_searchStep_fst (f g : ℚ → Bool) (l : List ℚ) :
    ∀ t : Option ℚ, (l.foldl (searchStep f g) (none, t)).1 = l.find? f := by
  induction l with
  | nil => intro t; rfl
  | cons r rs ih =>
    intro t
    rw [List.foldl_cons]
    by_cases hf : f r = true
    · have hstep : searchStep f g (none, t) r =
          (some r, if g r && t.isNone then some r else t) := by
        simp [searchStep, hf]
      rw [hstep, List.find?_cons_of_pos _ hf]
      exact foldl_searchStep_fst_some f g rs r _
    · have hstep : searchStep f g (none, t) r =
          (none, if g r && t.isNone then some r else t) := by
        simp [searchStep, hf]
      rw [hstep, List.find?_cons_of_neg _ hf]
      exact ih _

/-- The second latch of the loop computes `find?` of the sale condition. -/
lemma foldl_searchStep_snd (f g : ℚ → Bool) (l : List ℚ) :
    ∀ s : Option ℚ, (l.foldl (searchStep f g) (s, none)).2 = l.find? g := by
  induction l with
  | nil => intro s; rfl
  | cons r rs ih =>
    intro s
    rw [List.foldl_cons]
    by_cases hg : g r = true
    · have hstep : searchStep f g (s, none) r =
          (if f r && s.isNone then some r else s, some r) := by
        simp [searchStep, hg]
      rw [hstep, List.find?_cons_of_pos _ hg]
      exact foldl_searchStep_snd_some f g rs r _
    · have hstep : searchStep f g (s, none) r =
          (if f r && s.isNone then some r else s, none) := by
        simp [searchStep, hg]
      rw [hstep, List.find?_cons_of_neg _ hg]
      exact ih _

lemma tippingLatches_eq_find (a : Args) :
    tippingLatches a = ((searchRates a.rate).find? (lifetimePred a),
      (searchRates a.rate).find? (salePred a)) := by
  have h1 := foldl_searchStep_fst (lifetimePred a) (salePred a) (searchRates a.rate) none
  have h2 := foldl_searchStep_snd (lifetimePred a) (salePred a) (searchRates a.rate) none
  exact Prod.ext h1 h2

lemma searchRates_length (orig : ℚ) :
    (searchRates orig).length = ⌈(orig - 299 / 100) * 1000⌉.toNat := by
  rw [searchRates, List.length_map, List.length_range]

lemma searchRates_getElem (orig : ℚ) :
    ∀ i : ℕ, i < (searchRates orig).length →
      (searchRates orig)[i]? = some (orig - (i : ℚ) / 1000) := by
  intro i h
  rw [searchRates_length] at h
  rw [searchRates, List.getElem?_map, List.getElem?_range h]
  rfl

lemma searchRates_sorted (orig : ℚ) : (searchRates orig).Sorted (· > ·) := by
  unfold searchRates List.Sorted
  rw [List.pairwise_map]
  refine List.Pairwise.imp ?_ (List.pairwise_lt_range _)
  intro i j hij
  have hij' : (i : ℚ) < (j : ℚ) := by exact_mod_cast hij
  show orig - (j : ℚ) / 1000 < orig - (i : ℚ) / 1000
  linarith

lemma searchRates_mem {orig r : ℚ} (h : r ∈ searchRates orig) :
    299 / 100 < r ∧ r ≤ orig := by
  obtain ⟨i, hi, hr⟩ := List.mem_map.mp h
  rw [List.mem_range] at hi
  have hi' : (i : ℤ) < ⌈(orig - 299 / 100) * 1000⌉ := by omega
  have hq : (i : ℚ) < (orig - 299 / 100) * 1000 := by exact_mod_cast Int.lt_ceil.mp hi'
  have hnn : (0 : ℚ) ≤ (i : ℚ) / 1000 := by positivity
  have hr' : orig - (i : ℚ) / 1000 = r := hr
  constructor
  · rw [← hr']; linarith
  · rw [← hr']; linarith

lemma searchRates_head (orig : ℚ) (h : 299 / 100 < orig) :
    (searchRates orig).head? = some orig := by
  rw [searchRates]
  have hn : 0 < ⌈(orig - 299 / 100) * 1000⌉ := Int.ceil_pos.mpr (by nlinarith)
  obtain ⟨k, hk⟩ := Nat.exists_eq_succ_of_ne_zero
    (show ⌈(orig - 299 / 100) * 1000⌉.toNat ≠ 0 by omega)
  rw [hk, List.range_succ_eq_map]
  simp

lemma searchRates_last_low (orig : ℚ) :
    orig - ((searchRates orig).length : ℚ) / 1000 ≤ 299 / 100 := by
  rw [searchRates_length]
  have h1 : (orig - 299 / 100) * 1000 ≤ (⌈(orig - 299 / 100) * 1000⌉ : ℚ) := Int.le_ceil _
  have h2 : (⌈(orig - 299 / 100) * 1000⌉ : ℤ) ≤ (⌈(orig - 299 / 100) * 1000⌉.toNat : ℤ) :=
    Int.self_le_toNat _
  have h2' : ((⌈(orig - 299 / 100) * 1000⌉ : ℤ) : ℚ) ≤
      ((⌈(orig - 299 / 100) * 1000⌉.toNat : ℕ) : ℚ) := by exact_mod_cast h2
  push_cast at h2' ⊢
  linarith

/-- On a strictly descending list, `find?` returns the largest element that
satisfies the predicate. -/
lemma find?_sorted_is_max {p : ℚ → Bool} {l : List ℚ} (hs : l.Sorted (· > ·)) {r : ℚ}
    (h : l.find? p = some r) :
    p r = true ∧ ∀ r' ∈ l, p r' = true → r' ≤ r := by
  induction l with
  | nil => simp at h
  | cons x xs ih =>
    rw [List.sorted_cons] at hs
    by_cases hx : p x = true
    · rw [List.find?_cons_of_pos _ hx] at h
      injection h with h'
      subst h'
      refine ⟨hx, ?_⟩
      intro r' hr' _
      rcases List.mem_cons.mp hr' with rfl | hmem
      · exact le_refl _
      · exact le_of_lt (hs.1 r' hmem)
    · rw [List.find?_cons_of_neg _ hx] at h
      obtain ⟨hp, hmax⟩ := ih hs.2 h
      refine ⟨hp, ?_⟩
      intro r' hr' hpr'
      rcases List.mem_cons.mp hr' with rfl | hmem
      · exact absurd hpr' hx
      · exact hmax r' hmem hpr'

lemma mem_of_head?_eq_some {α : Type _} {l : List α} {x : α} (h : l.head? = some x) :
    x ∈ l := by
  cases l with
  | nil => exact Option.noConfusion h
  | cons y ys =>
    injection h with h'
    subst h'
    exact List.mem_cons_self y ys

lemma find?_eq_some_head {α : Type _} {p : α → Bool} {l : List α} {x : α}
    (hh : l.head? = some x) (hp : p x = true) : l.find? p = some x := by
  cases l with
  | nil => exact Option.noConfusion hh
  | cons y ys =>
    injection hh with h'
    subst h'
    exact List.find?_cons_of_pos _ hp

lemma searchRatesThree_length : (searchRates 3).length = 10 := by
  rw [searchRates_length]
  rw [show ((3 : ℚ) - 299 / 100) * 1000 = 10 by norm_num]
  rw [show ⌈(10 : ℚ)⌉ = (10 : ℤ) by norm_num]
  rfl

/-- Concrete evaluation: with amount 1000, original rate 3, original term 480
months, zero payments made and 2% closing costs, the lifetime condition
already holds at the candidate 3 (the original rate itself), because the
whole remaining 480-month stream outweighs 360 refinance payments. -/
lemma lifetimePred_demo :
    lifetimePred ⟨1000, 3, 480, 0, 0, 1 / 50⟩ 3 = true := by
  simp only [lifetimePred, decide_eq_true_eq, pmt_refi, pmt_orig, cost_refi_loan_amt,
    closing_costs, remaining_principal, get_loan_status, calculate_pmt,
    List.range_zero, List.foldl_nil]
  norm_num

/-- C1: the scan runs over the strictly descending candidates
`rate - i * 0.001`, which start at the original rate, stay above the 2.99
floor and reach it (the next step would cross it); each latch equals the
`find?` of its predicate over that list, i.e. it records the first — hence
highest — qualifying candidate and no lower qualifying rate replaces it. -/
theorem scan_latches_first_qualifying_rate (a : Args) :
    (∀ i : ℕ, i < (searchRates a.rate).length →
        (searchRates a.rate)[i]? = some (a.rate - (i : ℚ) / 1000)) ∧
    (searchRates a.rate).Sorted (· > ·) ∧
    (∀ r ∈ searchRates a.rate, 299 / 100 < r ∧ r ≤ a.rate) ∧
    (299 / 100 < a.rate → (searchRates a.rate).head? = some a.rate) ∧
    a.rate - ((searchRates a.rate).length : ℚ) / 1000 ≤ 299 / 100 ∧
    (tippingLatches a).1 = (searchRates a.rate).find? (lifetimePred a) ∧
    (tippingLatches a).2 = (searchRates a.rate).find? (salePred a) ∧
    (∀ r : ℚ, (tippingLatches a).1 = some r →
      lifetimePred a r = true ∧
        ∀ r' ∈ searchRates a.rate, lifetimePred a r' = true → r' ≤ r) ∧
    (∀ r : ℚ, (tippingLatches a).2 = some r →
      salePred a r = true ∧
        ∀ r' ∈ searchRates a.rate, salePred a r' = true → r' ≤ r) := by
  have hfind := tippingLatches_eq_find a
  refine ⟨searchRates_getElem a.rate, searchRates_sorted a.rate,
    fun r hr => searchRates_mem hr, searchRates_head a.rate, searchRates_last_low a.rate,
    by rw [hfind], by rw [hfind], ?_, ?_⟩
  · intro r hr
    rw [hfind] at hr
    exact find?_sorted_is_max (searchRates_sorted a.rate) hr
  · intro r hr
    rw [hfind] at hr
    exact find?_sorted_is_max (searchRates_sorted a.rate) hr

theorem scan_latches_first_qualifying_rate_witness :
    2 < (searchRates 3).length ∧
    (searchRates 3)[2]? = some (3 - (2 : ℚ) / 1000) ∧
    (299 / 100 : ℚ) < 3 ∧
    (searchRates 3).head? = some 3 ∧
    (tippingLatches ⟨1000, 3, 480, 0, 0, 1 / 50⟩).1 = some 3 ∧
    lifetimePred ⟨1000, 3, 480, 0, 0, 1 / 50⟩ 3 = true ∧
    (3 : ℚ) ≤ 3 := by
  have h := scan_latches_first_qualifying_rate ⟨1000, 3, 480, 0, 0, 1 / 50⟩
  have hlen : 2 < (searchRates 3).length := by
    rw [searchRatesThree_length]
    norm_num
  have hhead : (searchRates 3).head? = some 3 := searchRates_head 3 (by norm_num)
  have hlatch : (tippingLatches ⟨1000, 3, 480, 0, 0, 1 / 50⟩).1 = some 3 := by
    rw [h.2.2.2.2.2.1]
    exact find?_eq_some_head hhead lifetimePred_demo
  have hmax := h.2.2.2.2.2.2.2.1 3 hlatch
  have hmem : (3 : ℚ) ∈ searchRates 3 := mem_of_head?_eq_some hhead
  exact ⟨hlen, h.1 2 hlen, by norm_num, h.2.2.2.1 (by norm_num : (299 / 100 : ℚ) < 3),
    hlatch, hmax.1, hmax.2 3 hmem hmax.1⟩

/-- C10: when the original rate is at or below the 2.99 floor the candidate
list is empty, the loop body never runs and both tipping rates fall back to
the original rate. -/
theorem empty_scan_fallback (a : Args) (h : a.rate ≤ 299 / 100) :
    searchRates a.rate = [] ∧ tipping_rate_sale a = a.rate ∧
      tipping_rate_lifetime a = a.rate := by
  have hmul : (a.rate - 299 / 100) * 1000 ≤ 0 := by nlinarith
  have hceil : ⌈(a.rate - 299 / 100) * 1000⌉ ≤ 0 :=
    Int.ceil_le.mpr (by exact_mod_cast hmul)
  have he : searchRates a.rate = [] := by
    rw [searchRates, Int.toNat_of_nonpos hceil]
    rfl
  refine ⟨he, ?_, ?_⟩
  · simp only [tipping_rate_sale, tippingLatches, he, List.foldl_nil, Option.getD_none]
  · simp only [tipping_rate_lifetime, tippingLatches, he, List.foldl_nil, Option.getD_none]

theorem empty_scan_fallback_witness :
    (2 : ℚ) ≤ 299 / 100 ∧
    (searchRates 2 = [] ∧ tipping_rate_sale ⟨1000, 2, 360, 4, 120, 1 / 50⟩ = 2 ∧
      tipping_rate_lifetime ⟨1000, 2, 360, 4, 120, 1 / 50⟩ = 2) :=
  ⟨by norm_num, empty_scan_fallback ⟨1000, 2, 360, 4, 120, 1 / 50⟩
    (by norm_num : (2 : ℚ) ≤ 299 / 100)⟩

/-- C4: the principal of every evaluated refinance candidate is the remaining
balance scaled by `1 + closingCostPercent`, and both the candidate payment
and the candidate balance-at-sale are computed over the hard-coded 360-month
term, independent of the original term. -/
theorem refi_principal_and_term (a : Args) :
    cost_refi_loan_amt a = remaining_principal a * (1 + a.costs_pct) ∧
    (∀ r : ℚ, pmt_refi a r =
      calculate_pmt (remaining_principal a * (1 + a.costs_pct)) r 360) ∧
    (∀ r : ℚ, rem_principal_refi_sale a r =
      (get_loan_status (remaining_principal a * (1 + a.costs_pct)) r 360
        (a.months_until_sale - a.paid)).1) := by
  have hc : cost_refi_loan_amt a = remaining_principal a * (1 + a.costs_pct) := by
    simp only [cost_refi_loan_amt, closing_costs]
    ring
  refine ⟨hc, fun r => ?_, fun r => ?_⟩
  · simp only [pmt_refi, hc]
  · simp only [rem_principal_refi_sale, refi_payments_until_sale, hc]

/-- Shape of a returned tipping rate in terms of the `find?` result it came
from: the fallback keeps the original rate, a found candidate lies in the
scanned range. -/
lemma tipping_component (orig : ℚ) (res : Option ℚ)
    (hres : ∀ r, res = some r → r ∈ searchRates orig) :
    (res.getD orig = orig ∨
      (299 / 100 < res.getD orig ∧ res.getD orig < orig)) ∧
    (res.getD orig = orig ↔ (res = none ∨ res = some orig)) := by
  cases res with
  | none => simp
  | some r =>
    have hmem := hres r rfl
    obtain ⟨hgt, hle⟩ := searchRates_mem hmem
    simp only [Option.getD_some]
    rcases eq_or_lt_of_le hle with heq | hlt
    · subst heq
      exact ⟨Or.inl rfl, by simp⟩
    · refine ⟨Or.inr ⟨hgt, hlt⟩, ?_⟩
      constructor
      · intro h
        exact absurd h (ne_of_lt hlt)
      · rintro (h | h)
        · exact Option.noConfusion h
        · injection h

/-- C3 (amended): each returned tipping rate is either strictly between the
2.99 floor (exclusive) and the original rate, or exactly the original rate;
the latter happens precisely when no scanned candidate satisfies the
predicate (the fallback) or when the first scanned candidate — the original
rate itself — satisfies it. -/
theorem tipping_rate_range_amended (a : Args) :
    (tipping_rate_sale a = a.rate ∨
      (299 / 100 < tipping_rate_sale a ∧ tipping_rate_sale a < a.rate)) ∧
    (tipping_rate_sale a = a.rate ↔
      ((searchRates a.rate).find? (salePred a) = none ∨
        (searchRates a.rate).find? (salePred a) = some a.rate)) ∧
    (tipping_rate_lifetime a = a.rate ∨
      (299 / 100 < tipping_rate_lifetime a ∧ tipping_rate_lifetime a < a.rate)) ∧
    (tipping_rate_lifetime a = a.rate ↔
      ((searchRates a.rate).find? (lifetimePred a) = none ∨
        (searchRates a.rate).find? (lifetimePred a) = some a.rate)) := by
  have hfind := tippingLatches_eq_find a
  have hsale : tipping_rate_sale a =
      ((searchRates a.rate).find? (salePred a)).getD a.rate := by
    simp only [tipping_rate_sale, hfind]
  have hlife : tipping_rate_lifetime a =
      ((searchRates a.rate).find? (lifetimePred a)).getD a.rate := by
    simp only [tipping_rate_lifetime, hfind]
  rw [hsale, hlife]
  have hs := tipping_component a.rate ((searchRates a.rate).find? (salePred a))
    (fun r hr => List.mem_of_find?_eq_some hr)
  have hl := tipping_component a.rate ((searchRates a.rate).find? (lifetimePred a))
    (fun r hr => List.mem_of_find?_eq_some hr)
  exact ⟨hs.1, hs.2, hl.1, hl.2⟩

/-- C3 counterexample: for amount 1000, rate 3, term 480 months, 0 payments
made, sale at the first-payment month and 2% closing costs, the lifetime
tipping rate equals the original rate even though a scanned candidate (the
original rate itself, the head of the scan) satisfies the lifetime
predicate — refuting "equal to the original rate precisely when no scanned
candidate satisfies that horizon's predicate". -/
theorem tipping_fallback_iff_counterexample :
    tipping_rate_lifetime ⟨1000, 3, 480, 0, 0, 1 / 50⟩ = (3 : ℚ) ∧
    (3 : ℚ) ∈ searchRates 3 ∧
    lifetimePred ⟨1000, 3, 480, 0, 0, 1 / 50⟩ 3 = true ∧
    ¬ (tipping_rate_lifetime ⟨1000, 3, 480, 0, 0, 1 / 50⟩ = (3 : ℚ) →
        ∀ r ∈ searchRates (3 : ℚ), lifetimePred ⟨1000, 3, 480, 0, 0, 1 / 50⟩ r = false) := by
  have hhead : (searchRates 3).head? = some 3 := searchRates_head 3 (by norm_num)
  have hlatch : (tippingLatches ⟨1000, 3, 480, 0, 0, 1 / 50⟩).1 = some 3 := by
    rw [tippingLatches_eq_find]
    exact find?_eq_some_head hhead lifetimePred_demo
  have hval : tipping_rate_lifetime ⟨1000, 3, 480, 0, 0, 1 / 50⟩ = 3 := by
    simp only [tipping_rate_lifetime, hlatch, Option.getD_some]
  have hpred : lifetimePred ⟨1000, 3, 480, 0, 0, 1 / 50⟩ 3 = true := lifetimePred_demo
  have hmem : (3 : ℚ) ∈ searchRates 3 := mem_of_head?_eq_some hhead
  refine ⟨hval, hmem, hpred, fun hcontra => ?_⟩
  have hfalse := hcontra hval 3 hmem
  rw [hpred] at hfalse
  exact Bool.noConfusion hfalse

/-! ### The comparison-table rate list -/

lemma sortedDescDedup_sorted (l : List ℚ) :
    List.Sorted (· > ·) (List.insertionSort (· ≥ ·) l.dedup) := by
  have hperm : List.Perm (List.insertionSort (· ≥ ·) l.dedup) l.dedup :=
    List.perm_insertionSort _ _
  have hsorted : List.Sorted (· ≥ ·) (List.insertionSort (· ≥ ·) l.dedup) :=
    List.sorted_insertionSort _ _
  have hnodup : (List.insertionSort (· ≥ ·) l.dedup).Nodup :=
    hperm.nodup_iff.mpr (List.nodup_dedup l)
  exact List.Pairwise.imp (fun h => lt_of_le_of_ne h.1 (Ne.symm h.2))
    (List.Pairwise.and hsorted hnodup)

lemma sortedDescDedup_mem (l : List ℚ) (r : ℚ) :
    r ∈ List.insertionSort (· ≥ ·) l.dedup ↔ r ∈ l := by
  rw [List.mem_insertionSort, List.mem_dedup]

lemma sortedDescDedup_length (l : List ℚ) :
    (List.insertionSort (· ≥ ·) l.dedup).length ≤ l.length := by
  rw [(List.perm_insertionSort _ _).length_eq]
  exact (List.dedup_sublist l).length_le

/-- C5: the comparison-table rates are exactly the values of the candidate
set {ts+0.075, ts, ts-0.25, tl, tl-0.25} (each rounded to 3 decimals) that
are strictly below the original rate, with duplicates removed and sorted
strictly descending; hence at most 5 rows, each strictly below the
original rate. -/
theorem table_rates_sorted_bounded (ts tl orig : ℚ) :
    List.Sorted (· > ·) (table_rates ts tl orig) ∧
    (∀ r : ℚ, r ∈ table_rates ts tl orig ↔
      (r ∈ table_rate_candidates ts tl ∧ r < orig)) ∧
    (table_rates ts tl orig).length ≤ 5 := by
  refine ⟨sortedDescDedup_sorted _, fun r => ?_, ?_⟩
  · rw [table_rates, sortedDescDedup_mem, List.mem_filter, List.mem_insertionSort,
      List.mem_dedup]
    simp [decide_eq_true_eq]
  · rw [table_rates]
    calc (List.insertionSort (· ≥ ·) (((List.insertionSort (· ≤ ·)
          (table_rate_candidates ts tl).dedup).filter
            (fun r => decide (r < orig))).dedup)).length
        ≤ ((List.insertionSort (· ≤ ·) (table_rate_candidates ts tl).dedup).filter
            (fun r => decide (r < orig))).length := sortedDescDedup_length _
      _ ≤ (List.insertionSort (· ≤ ·) (table_rate_candidates ts tl).dedup).length :=
          List.length_filter_le _ _
      _ = (table_rate_candidates ts tl).dedup.length :=
          (List.perm_insertionSort _ _).length_eq
      _ ≤ (table_rate_candidates ts tl).length := (List.dedup_sublist _).length_le
      _ = 5 := rfl

end MortgageRefi
